import Mathlib

/-!
Verification of the ÆON labeler's reconciliation engine against its
natural-language specification.

The development shallowly embeds the relevant parts of the source:

* `src/schemas.ts` — the identifier format validators (`RkeySchema`,
  `DidSchema`) as executable predicates on `String`;
* `src/labels.ts` — the static label catalog `LABELS` and the derived
  category table `CATEGORIES`;
* `src/aeon.ts` — the reconciliation operations.  The repository carries
  two generations of the engine: the `assignOrUpdateLabel` / `removeLabel`
  / `fetchCurrentLabels` generation (category-keyed, batch negation) and
  the newer `handleLike` / `getCurrentLabel` / `removeCurrentLabel`
  generation wired into `main.ts` (single newest-row state, decommission
  via `CONFIG.REMOVAL_RKEY`).  Both are embedded;
* `src/metrics.ts` — `MetricsTracker.incrementLabel` / `decrementLabel`
  over the per-label counter map;
* `src/handler.ts` — `Handler.calculateDelay` over exact rationals;
* `src/config.ts` — `setConfigValue` with the Zod schema parse treated as
  an abstract filter (Zod is an external library; its parse on this
  schema returns the input object unchanged when validation succeeds).

The label store (`LabelerServer.db`) is modelled as a list of assertion
rows, newest first: `createLabel` prepends a row, and the SQL query
`SELECT … ORDER BY cts DESC` is the list itself.  Store reads, writes and
metric calls are recorded in an operation trace so that claims counting
store I/O can be stated.
-/

namespace Aeon

/-- Model of `String.startsWith`, reduced to the character list so that
kernel evaluation (`decide`) is cheap on the short identifiers involved. -/
def strStartsWith (s pre : String) : Bool :=
  pre.data.isPrefixOf s.data

/-- Character class `[a-z2-7]` used by `RkeySchema` and `DidSchema`
(base32-sortable alphabet, no digits 0, 1, 8, 9). -/
def isBase32Char (c : Char) : Bool :=
  (decide ('a' ≤ c) && decide (c ≤ 'z')) || (decide ('2' ≤ c) && decide (c ≤ '7'))

/-- `DidSchema` from `src/schemas.ts`: regex `^did:plc:[a-z2-7]{24}$`. -/
def validDid (s : String) : Bool :=
  strStartsWith s "did:plc:" && (s.data.drop 8).length == 24
    && (s.data.drop 8).all isBase32Char

/-- `RkeySchema` from `src/schemas.ts`: a 13-character `[a-z2-7]` string,
or the literal sentinel string `self`. -/
def validRkey (s : String) : Bool :=
  (s.data.length == 13 && s.data.all isBase32Char) || s == "self"

/-- A catalog entry from `src/labels.ts` (`LabelSchema`): the trigger
post's record key, the label value applied to subjects, and the
exclusivity category. -/
structure Label where
  rkey : String
  identifier : String
  category : String
deriving DecidableEq, Repr

/-- The static label catalog `LABELS` from `src/labels.ts` (current
revision: eleven entries, including the duplicated `stcr` entry and the
`self`-keyed `drmr` entry). -/
def LABELS : List Label := [
  ⟨"3jzfcijpj2z2b", "adlr", "adlr"⟩,
  ⟨"3jzfcijpj2z2c", "arar", "arar"⟩,
  ⟨"3jzfcijpj2z2c", "eulr", "eulr"⟩,
  ⟨"3jzfcijpj2z2a", "fklr", "fklr"⟩,
  ⟨"3jzfcijpj2z2c", "klbr", "klbr"⟩,
  ⟨"3jzfcijpj2z2c", "lstr", "lstr"⟩,
  ⟨"3jzfcijpj2z2c", "mnhr", "mnhr"⟩,
  ⟨"3jzfcijpj2z2c", "star", "star"⟩,
  ⟨"3jzfcijpj2z2c", "stcr", "stcr"⟩,
  ⟨"3jzfcijpj2z2c", "stcr", "stcr"⟩,
  ⟨"self", "drmr", "drmr"⟩]

/-- `CATEGORIES` from `src/schemas.ts`: the keys of the object built from
the catalog's category column (JS object keys deduplicate, keeping first
insertion order). -/
def CATEGORIES : List String :=
  ["adlr", "arar", "eulr", "fklr", "klbr", "lstr", "mnhr", "star", "stcr", "drmr"]

/-- `Aeon.findLabelByPost`: first catalog entry whose `rkey` matches. -/
def findLabelByPost (rkey : String) : Option Label :=
  LABELS.find? (fun l => l.rkey == rkey)

/-- `Aeon.getCategoryFromLabel`: first category that the label identifier
starts with, if any. -/
def getCategoryFromLabel (label : String) : Option String :=
  CATEGORIES.find? (fun cat => strStartsWith label cat)

/-- One row of the `labels` table owned by the labeler server: subject
URI, label value, and negation flag.  Creation order is carried by the
position in the store list (newest first), mirroring `ORDER BY cts DESC`. -/
structure Row where
  uri : String
  val : String
  neg : Bool
deriving DecidableEq, Repr

/-- The label store: the full `labels` table, newest row first. -/
abbrev Store := List Row

/-- `Aeon.getCurrentLabel` (newest engine generation):
`SELECT val, neg FROM labels WHERE uri = ? ORDER BY cts DESC LIMIT 1`. -/
def getCurrentLabel (s : Store) (did : String) : Option (String × Bool) :=
  (s.find? (fun r => r.uri == did)).map (fun r => (r.val, r.neg))

/-- The store adapter's notion of an effective label: the most recent row
for `(uri, v)` exists and is not a negation. -/
def isEffective (s : Store) (uri v : String) : Bool :=
  ((s.find? (fun r => r.uri == uri && r.val == v)).map Row.neg) == some false

/-- `Aeon.fetchCurrentLabels`, one category of the returned map: iterate
the rows for `did` whose value falls in the category's `LIKE` range,
newest first, adding the value to the set whenever the row is
non-negated.  (The current revision never removes a value on a negation
row.)  The JS `Set` is modelled as a duplicate-free list in insertion
order; `fetchStep` is one iteration of the row loop. -/
def fetchStep (did category : String) (acc : List String) (r : Row) : List String :=
  if r.uri == did && strStartsWith r.val category && r.neg == false then
    (if r.val ∈ acc then acc else acc ++ [r.val])
  else acc

def fetchCurrentLabels (s : Store) (did category : String) : List String :=
  s.foldl (fetchStep did category) []

/-- `LabelerServer.createLabels` with a `negate` list: append one negation
row per value.  All rows of the batch are newer than the existing store;
their relative order is irrelevant because the values are pairwise
distinct (they come from a `Set`). -/
def negateAll (s : Store) (uri : String) (vals : List String) : Store :=
  (vals.map (fun v => Row.mk uri v true)) ++ s

/-- Store/metric calls issued by an operation, for claims that count I/O. -/
inductive StoreOp
  | query (did : String)
  | createLabels (uri : String) (negate : List String)
  | createLabel (uri val : String) (neg : Bool)
  | metricRecord (identifier : String)
  | metricIncrement (identifier : String)
  | metricDecrement (identifier : String)
deriving DecidableEq, Repr

/-- Error outcomes: `validation` is a thrown `ZodError`, `labeling` the
engine's `LabelingError`. -/
inductive AeonError
  | validation
  | labeling
deriving DecidableEq, Repr

example : validDid "did:plc:aaaaaaaaaaaaaaaaaaaaaaaa" = true := by decide
example : validDid "did:plc:aaaaaaaaaaaaaaaaaaaaaaa" = false := by decide
example : validRkey "3jzfcijpj2z2a" = true := by decide
example : validRkey "self" = true := by decide
example : validRkey "3jzfcijpj2z2A" = false := by decide
example : findLabelByPost "3jzfcijpj2z2a" =
    some ⟨"3jzfcijpj2z2a", "fklr", "fklr"⟩ := by decide
example : getCategoryFromLabel "fklr" = some "fklr" := by decide
example : getCategoryFromLabel "invalid" = none := by decide

/-- The persisted per-label counter map of `MetricsTracker`
(`src/metrics.ts`): the Deno KV value under `['metrics', 'labels']`,
`none` for an absent key. -/
def Metrics : Type := String → Option Int

/-- The empty metrics object (`result.value ?? {}` on a fresh store). -/
def metricsEmpty : Metrics := fun _ => none

/-- Point update of the metrics object. -/
def mset (m : Metrics) (id : String) (v : Int) : Metrics :=
  fun x => if x = id then some v else m x

/-- `getLabelCount`: `metrics[identifier] || 0`. -/
def getCount (m : Metrics) (id : String) : Int :=
  (m id).getD 0

/-- `MetricsTracker.incrementLabel`:
`metrics[identifier] = (metrics[identifier] || 0) + 1`. -/
def incrementLabel (m : Metrics) (id : String) : Metrics :=
  mset m id ((m id).getD 0 + 1)

/-- `MetricsTracker.decrementLabel`: decrement only when the stored count
is positive (`if (metrics[identifier] > 0)`); otherwise the map is left
untouched and no KV write happens. -/
def decrementLabel (m : Metrics) (id : String) : Metrics :=
  if (m id).getD 0 > 0 then mset m id ((m id).getD 0 - 1) else m

/-- A metric operation, for sequences of counter updates. -/
inductive MOp
  | inc (id : String)
  | dec (id : String)

/-- Apply one metric operation. -/
def mStep (m : Metrics) : MOp → Metrics
  | .inc id => incrementLabel m id
  | .dec id => decrementLabel m id

/-- Run a sequence of counter operations from the empty metrics state. -/
def runMetrics (ops : List MOp) : Metrics :=
  ops.foldl mStep metricsEmpty

/-- `Aeon.assignOrUpdateLabel` from `src/aeon.ts` (the category-keyed
engine generation), acting on the store model.  Returns the engine
outcome together with the trace of store/metric calls, in program order:
validate subject and rkey (`ZodError` before any store I/O), block
self-labeling, resolve the trigger against the catalog (an unresolved
trigger or category throws `LabelingError` before any store access),
fetch the category's current labels, negate them all in one
`createLabels` batch when non-empty, create the new label, and record the
metric (`recordLabelOp`). -/
def assignOrUpdateLabel (cfgDid : String) (s : Store) (subject rkey : String) :
    Except AeonError Store × List StoreOp :=
  if validDid subject = false then (.error .validation, [])
  else if validRkey rkey = false then (.error .validation, [])
  else if subject = cfgDid then (.ok s, [])
  else
    match findLabelByPost rkey with
    | none => (.error .labeling, [])
    | some newLabel =>
      match getCategoryFromLabel newLabel.identifier with
      | none => (.error .labeling, [])
      | some category =>
        if fetchCurrentLabels s subject category = [] then
          (.ok (Row.mk subject newLabel.identifier false :: s),
           [StoreOp.query subject,
            StoreOp.createLabel subject newLabel.identifier false,
            StoreOp.metricRecord newLabel.identifier])
        else
          (.ok (Row.mk subject newLabel.identifier false ::
                  negateAll s subject (fetchCurrentLabels s subject category)),
           [StoreOp.query subject,
            StoreOp.createLabels subject (fetchCurrentLabels s subject category),
            StoreOp.createLabel subject newLabel.identifier false,
            StoreOp.metricRecord newLabel.identifier])

/-- `Aeon.removeLabel` from `src/aeon.ts` (same engine generation):
validate the subject, resolve the identifier's category (silent no-op
when invalid), fetch the category's current labels, and when the
identifier is present create one negation row and record the metric
(`recordRemoveOp`). -/
def removeLabel (s : Store) (subject labelIdentifier : String) :
    Except AeonError Store × List StoreOp :=
  if validDid subject = false then (.error .validation, [])
  else
    match getCategoryFromLabel labelIdentifier with
    | none => (.ok s, [])
    | some category =>
      if labelIdentifier ∈ fetchCurrentLabels s subject category then
        (.ok (Row.mk subject labelIdentifier true :: s),
         [StoreOp.query subject,
          StoreOp.createLabel subject labelIdentifier true,
          StoreOp.metricRecord labelIdentifier])
      else (.ok s, [StoreOp.query subject])

/-- One completed call into the category-keyed engine. -/
inductive AeonOp
  | assign (subject rkey : String)
  | remove (subject labelIdentifier : String)

/-- Store state after one engine call; a call that throws leaves the
store unchanged (every error in `assignOrUpdateLabel` / `removeLabel` is
raised before the first store write). -/
def applyOp (cfgDid : String) (s : Store) : AeonOp → Store
  | .assign subject rkey =>
      match (assignOrUpdateLabel cfgDid s subject rkey).1 with
      | .ok s2 => s2
      | .error _ => s
  | .remove subject li =>
      match (removeLabel s subject li).1 with
      | .ok s2 => s2
      | .error _ => s

/-- Store state after a sequence of engine calls from the empty store. -/
def runOps (cfgDid : String) (ops : List AeonOp) : Store :=
  ops.foldl (applyOp cfgDid) []

/-- State of the newest engine generation: the label store plus the
per-label counters used by `handleLike`. -/
structure HLState where
  store : Store
  metrics : Metrics

/-- `Aeon.handleLike` from the newest `aeon.ts` revision (the operation
`main.ts` dispatches stream events to): validate subject and rkey, block
self-labeling, branch to `removeCurrentLabel` when the rkey is the
decommission sentinel `CONFIG.REMOVAL_RKEY`, otherwise resolve the
catalog entry (silent no-op when unresolved), read the subject's newest
row, no-op when that row already carries the target label non-negated,
negate a different active label (decrementing its counter), and create
the new label (incrementing its counter). -/
def handleLike (cfgDid removalRkey : String) (st : HLState)
    (subject rkey : String) : Except AeonError HLState × List StoreOp :=
  if validDid subject = false then (.error .validation, [])
  else if validRkey rkey = false then (.error .validation, [])
  else if subject = cfgDid then (.ok st, [])
  else if rkey = removalRkey then
    match getCurrentLabel st.store subject with
    | some (v, false) =>
        (.ok ⟨Row.mk subject v true :: st.store, decrementLabel st.metrics v⟩,
         [StoreOp.query subject, StoreOp.createLabel subject v true,
          StoreOp.metricDecrement v])
    | _ => (.ok st, [StoreOp.query subject])
  else
    match findLabelByPost rkey with
    | none => (.ok st, [])
    | some newLabel =>
      match getCurrentLabel st.store subject with
      | some (v, false) =>
        if v = newLabel.identifier then (.ok st, [StoreOp.query subject])
        else
          (.ok ⟨Row.mk subject newLabel.identifier false ::
                  Row.mk subject v true :: st.store,
                incrementLabel (decrementLabel st.metrics v) newLabel.identifier⟩,
           [StoreOp.query subject, StoreOp.createLabel subject v true,
            StoreOp.metricDecrement v,
            StoreOp.createLabel subject newLabel.identifier false,
            StoreOp.metricIncrement newLabel.identifier])
      | _ =>
          (.ok ⟨Row.mk subject newLabel.identifier false :: st.store,
                incrementLabel st.metrics newLabel.identifier⟩,
           [StoreOp.query subject,
            StoreOp.createLabel subject newLabel.identifier false,
            StoreOp.metricIncrement newLabel.identifier])

/-- One stream event delivered to `handleLike`. -/
inductive HLOp
  | like (subject rkey : String)

/-- State after one `handleLike` call; a call that throws leaves the
state unchanged (validation happens before any mutation). -/
def hlStep (cfgDid removalRkey : String) (st : HLState) : HLOp → HLState
  | .like subject rkey =>
      match (handleLike cfgDid removalRkey st subject rkey).1 with
      | .ok st2 => st2
      | .error _ => st

/-- State after a sequence of stream events from the empty store and
zeroed counters. -/
def runHL (cfgDid removalRkey : String) (ops : List HLOp) : HLState :=
  ops.foldl (hlStep cfgDid removalRkey) ⟨[], metricsEmpty⟩

/-- `Handler.MAX_EXPONENTIAL_ATTEMPTS` (`src/handler.ts`). -/
def MAX_EXPONENTIAL_ATTEMPTS : ℕ := 6

/-- `Handler.BASE_DELAY` in milliseconds (`src/handler.ts`). -/
def BASE_DELAY : ℚ := 30000

/-- `Handler.MAX_DELAY` in milliseconds (`src/handler.ts`). -/
def MAX_DELAY : ℚ := 600000

/-- `Handler.calculateDelay` (`src/handler.ts`), over exact rationals
(the float arithmetic involved stays far from the stated bounds, so exact
arithmetic is a faithful model of the inequalities at issue).  `attempt`
is `this.reconnectAttempt`; `jitter` stands for `Math.random() * 1000`,
an arbitrary value in `[0, 1000)`. -/
def calculateDelay (attempt : ℕ) (jitter : ℚ) : ℚ :=
  if MAX_EXPONENTIAL_ATTEMPTS ≤ attempt then MAX_DELAY
  else
    min (BASE_DELAY + (MAX_DELAY - BASE_DELAY) *
          ((attempt : ℚ) / (MAX_EXPONENTIAL_ATTEMPTS : ℚ)) + jitter)
      MAX_DELAY

/-- The configuration keys of `ConfigSchema` (`src/schemas.ts`). -/
inductive ConfigKey
  | DID
  | SIGNING_KEY
  | JETSTREAM_URL
  | COLLECTION
  | CURSOR
  | CURSOR_INTERVAL
  | BSKY_HANDLE
  | BSKY_PASSWORD
  | BSKY_URL
  | PORT
  | REMOVAL_RKEY
deriving DecidableEq, Repr

/-- A configuration field value: the schema's fields are strings or
numbers. -/
inductive ConfigVal
  | str (s : String)
  | num (n : Int)
deriving DecidableEq, Repr

/-- The in-memory `CONFIG` object: a value for every schema key. -/
def Config : Type := ConfigKey → ConfigVal

/-- The persisted KV entries under `['config', key]`. -/
def ConfigKv : Type := ConfigKey → Option ConfigVal

/-- The spread `{ ...CONFIG, [key]: value }`. -/
def configUpdate (cfg : Config) (key : ConfigKey) (v : ConfigVal) : Config :=
  fun k => if k = key then v else cfg k

/-- `setConfigValue` from `src/config.ts`, with `ConfigSchema.parse`
abstracted as `parse : Config → Option Config` (Zod is an external
library; for this schema — plain validators, no transforms — a
successful parse returns the input values unchanged, which theorems take
as a hypothesis).  The function builds the updated config, validates the
whole of it, and only then writes the single KV entry and replaces the
in-memory `CONFIG`; a failed parse throws before any write.  The final
component lists the KV keys written. -/
def setConfigValue (parse : Config → Option Config) (cfg : Config)
    (kv : ConfigKv) (key : ConfigKey) (v : ConfigVal) :
    Option AeonError × Config × ConfigKv × List ConfigKey :=
  match parse (configUpdate cfg key v) with
  | none => (some .validation, cfg, kv, [])
  | some validated =>
      (none, validated,
       fun k => if k = key then some (validated key) else kv k, [key])

/-- A test subject DID (matches the spec's concrete scenario). -/
def did0 : String := "did:plc:aaaaaaaaaaaaaaaaaaaaaaaa"

/-- A service DID (`CONFIG.DID`) for concrete instances. -/
def didSvc : String := "did:plc:bbbbbbbbbbbbbbbbbbbbbbbb"

/-- `defaultConfig.REMOVAL_RKEY` from `src/config.ts`: the decommission
sentinel record key. -/
def removalRkey0 : String := "3jzfcijpj2z2d"

theorem getCurrentLabel_cons (r : Row) (s : Store) (did : String) :
    getCurrentLabel (r :: s) did =
      if r.uri = did then some (r.val, r.neg) else getCurrentLabel s did := by
  unfold getCurrentLabel
  by_cases h : r.uri = did
  · rw [List.find?_cons_of_pos _ (by simp [h]), if_pos h, Option.map_some']
  · rw [List.find?_cons_of_neg _ (by simp [h]), if_neg h]

theorem isEffective_cons (r : Row) (s : Store) (u v : String) :
    isEffective (r :: s) u v =
      if r.uri = u ∧ r.val = v then r.neg == false else isEffective s u v := by
  unfold isEffective
  by_cases h : r.uri = u ∧ r.val = v
  · rw [List.find?_cons_of_pos _ (by simp [h.1, h.2]), if_pos h, Option.map_some']
    cases r.neg <;> rfl
  · rw [List.find?_cons_of_neg _ ?_, if_neg h]
    simp only [Bool.and_eq_true, beq_iff_eq]
    exact h

theorem store_mk (s : Store) (m : Metrics) : (HLState.mk s m).store = s := rfl

theorem metrics_mk (s : Store) (m : Metrics) : (HLState.mk s m).metrics = m := rfl

theorem mem_fetchStep (did c v : String) (acc : List String) (r : Row) :
    v ∈ fetchStep did c acc r ↔
      v ∈ acc ∨ (r.uri = did ∧ strStartsWith r.val c = true ∧
        r.neg = false ∧ r.val = v) := by
  unfold fetchStep
  by_cases hcond : (r.uri == did && strStartsWith r.val c && r.neg == false) = true
  · have hsplit : r.uri = did ∧ strStartsWith r.val c = true ∧ r.neg = false := by
      simpa [Bool.and_eq_true, beq_iff_eq, and_assoc] using hcond
    obtain ⟨hu, hs, hn⟩ := hsplit
    rw [if_pos hcond]
    by_cases hv : r.val ∈ acc
    · rw [if_pos hv]
      constructor
      · exact fun hm => Or.inl hm
      · rintro (hm | ⟨_, _, _, hval⟩)
        · exact hm
        · exact hval ▸ hv
    · rw [if_neg hv]
      simp only [List.mem_append, List.mem_singleton, hu, hs, hn, true_and]
      constructor
      · rintro (hm | he)
        · exact Or.inl hm
        · exact Or.inr he.symm
      · rintro (hm | he)
        · exact Or.inl hm
        · exact Or.inr he.symm
  · rw [if_neg hcond]
    have hnc : ¬(r.uri = did ∧ strStartsWith r.val c = true ∧ r.neg = false) := by
      intro hc
      exact hcond (by simp [hc.1, hc.2.1, hc.2.2])
    constructor
    · exact Or.inl
    · rintro (hm | ⟨hu, hs, hn, _⟩)
      · exact hm
      · exact absurd ⟨hu, hs, hn⟩ hnc

theorem mem_fetchFold (did c v : String) (s : Store) :
    ∀ acc : List String,
      (v ∈ s.foldl (fetchStep did c) acc ↔
        v ∈ acc ∨ ∃ r ∈ s, r.uri = did ∧ strStartsWith r.val c = true ∧
          r.neg = false ∧ r.val = v) := by
  induction s with
  | nil => intro acc; simp
  | cons r s ih =>
      intro acc
      rw [List.foldl_cons, ih (fetchStep did c acc r), mem_fetchStep]
      simp only [List.mem_cons]
      constructor
      · rintro ((hm | hr) | ⟨r2, hr2, hp⟩)
        · exact Or.inl hm
        · exact Or.inr ⟨r, Or.inl rfl, hr⟩
        · exact Or.inr ⟨r2, Or.inr hr2, hp⟩
      · rintro (hm | ⟨r2, (rfl | hr2), hp⟩)
        · exact Or.inl (Or.inl hm)
        · exact Or.inl (Or.inr hp)
        · exact Or.inr ⟨r2, hr2, hp⟩

/-- C3 amendment: what `fetchCurrentLabels` actually computes.  The set it
returns for a category contains a value exactly when SOME assertion row
for that subject and value (in the category's `LIKE` range) is
non-negated — a later negation row does not remove the value, because the
loop only ever adds on `neg = 'false'` rows and never deletes.  The
claim's "most recent row wins" reading is refuted by
`C3_effective_state_counterexample`. -/
theorem C3_effective_state (s : Store) (did c v : String) :
    v ∈ fetchCurrentLabels s did c ↔
      ∃ r ∈ s, r.uri = did ∧ strStartsWith r.val c = true ∧
        r.neg = false ∧ r.val = v := by
  unfold fetchCurrentLabels
  rw [mem_fetchFold]
  simp

/-- C3, counterexample to the claim as frozen: a subject whose `fklr`
label was created and later negated (the negation row is the most recent
one, so the value is not effective) is still reported by
`fetchCurrentLabels` as carrying `fklr`. -/
theorem C3_effective_state_counterexample :
    ("fklr" ∈ fetchCurrentLabels
        [Row.mk did0 "fklr" true, Row.mk did0 "fklr" false] did0 "fklr") ∧
    isEffective [Row.mk did0 "fklr" true, Row.mk did0 "fklr" false]
        did0 "fklr" = false := by
  decide

/-- C2: idempotence of the reconcile operation (`handleLike`).  After a
successful assignment of label L, reconciling the same subject with L's
trigger key again returns the state unchanged and performs only the
single state read: no `createLabel`, no `createLabels`, no counter
change, because the subject's newest row already carries L non-negated. -/
theorem handleLike_assign (cfgDid removalRkey : String) (st : HLState)
    (S K : String) (lab : Label)
    (hS : validDid S = true) (hne : S ≠ cfgDid) (hK : validRkey K = true)
    (hnr : K ≠ removalRkey) (hfind : findLabelByPost K = some lab) :
    handleLike cfgDid removalRkey st S K =
      match getCurrentLabel st.store S with
      | some (v, false) =>
        if v = lab.identifier then (.ok st, [StoreOp.query S])
        else
          (.ok ⟨Row.mk S lab.identifier false :: Row.mk S v true :: st.store,
                incrementLabel (decrementLabel st.metrics v) lab.identifier⟩,
           [StoreOp.query S, StoreOp.createLabel S v true,
            StoreOp.metricDecrement v,
            StoreOp.createLabel S lab.identifier false,
            StoreOp.metricIncrement lab.identifier])
      | _ =>
          (.ok ⟨Row.mk S lab.identifier false :: st.store,
                incrementLabel st.metrics lab.identifier⟩,
           [StoreOp.query S, StoreOp.createLabel S lab.identifier false,
            StoreOp.metricIncrement lab.identifier]) := by
  unfold handleLike
  rw [if_neg (by simp [hS]), if_neg (by simp [hK]), if_neg hne, if_neg hnr,
    hfind]

theorem C2_idempotence (cfgDid removalRkey : String) (st : HLState)
    (S K : String) (lab : Label)
    (hS : validDid S = true) (hne : S ≠ cfgDid) (hK : validRkey K = true)
    (hnr : K ≠ removalRkey) (hfind : findLabelByPost K = some lab) :
    ∃ st1 tr1,
      handleLike cfgDid removalRkey st S K = (.ok st1, tr1) ∧
      handleLike cfgDid removalRkey st1 S K = (.ok st1, [StoreOp.query S]) := by
  rw [handleLike_assign cfgDid removalRkey st S K lab hS hne hK hnr hfind]
  cases hcur : getCurrentLabel st.store S with
  | none =>
      refine ⟨_, _, rfl, ?_⟩
      rw [handleLike_assign cfgDid removalRkey _ S K lab hS hne hK hnr hfind]
      rw [store_mk, getCurrentLabel_cons]
      simp
  | some p =>
      obtain ⟨v, b⟩ := p
      cases b with
      | true =>
          refine ⟨_, _, rfl, ?_⟩
          rw [handleLike_assign cfgDid removalRkey _ S K lab hS hne hK hnr hfind]
          rw [store_mk, getCurrentLabel_cons]
          simp
      | false =>
          by_cases hv : v = lab.identifier
          · subst hv
            refine ⟨st, [StoreOp.query S], by simp, ?_⟩
            rw [handleLike_assign cfgDid removalRkey st S K lab hS hne hK hnr
              hfind, hcur]
            simp
          · refine ⟨⟨Row.mk S lab.identifier false :: Row.mk S v true :: st.store,
                incrementLabel (decrementLabel st.metrics v) lab.identifier⟩,
              [StoreOp.query S, StoreOp.createLabel S v true,
               StoreOp.metricDecrement v,
               StoreOp.createLabel S lab.identifier false,
               StoreOp.metricIncrement lab.identifier], by simp [hv], ?_⟩
            rw [handleLike_assign cfgDid removalRkey _ S K lab hS hne hK hnr
              hfind]
            rw [store_mk, getCurrentLabel_cons]
            simp

/-- C2, witness: assigning `fklr` to a fresh subject and reconciling the
same trigger again. -/
theorem C2_idempotence_witness :
    ∃ st1 tr1,
      handleLike didSvc removalRkey0 ⟨[], metricsEmpty⟩ did0 "3jzfcijpj2z2a" =
        (.ok st1, tr1) ∧
      handleLike didSvc removalRkey0 st1 did0 "3jzfcijpj2z2a" =
        (.ok st1, [StoreOp.query did0]) :=
  C2_idempotence didSvc removalRkey0 ⟨[], metricsEmpty⟩ did0 "3jzfcijpj2z2a"
    ⟨"3jzfcijpj2z2a", "fklr", "fklr"⟩ (by decide) (by decide) (by decide)
    (by decide) (by decide)

theorem bool_eq_true_of_not_eq_false (b : Bool) (h : ¬ b = false) : b = true := by
  cases b
  · exact absurd rfl h
  · rfl

/-- Coherence of the newest-row read with the store's effective state: in
every store reachable through `handleLike`, whenever some value is
effective for a subject, the subject's newest row is exactly that value,
non-negated.  (In particular at most one value is effective per subject.) -/
def newestCoherent (s : Store) : Prop :=
  ∀ u v, isEffective s u v = true → getCurrentLabel s u = some (v, false)

theorem newestCoherent_nil : newestCoherent [] := by
  intro u v h
  simp [isEffective, List.find?] at h

theorem newestCoherent_negate (s : Store) (u v : String)
    (h : newestCoherent s) (hcur : getCurrentLabel s u = some (v, false)) :
    newestCoherent (Row.mk u v true :: s) := by
  intro u0 w heff
  rw [getCurrentLabel_cons]
  by_cases hu : u = u0
  · subst hu
    exfalso
    rw [isEffective_cons] at heff
    by_cases hw : w = v
    · subst hw
      rw [if_pos ⟨rfl, rfl⟩] at heff
      exact Bool.noConfusion heff
    · rw [if_neg (fun hc => hw hc.2.symm)] at heff
      have hcw := h u w heff
      rw [hcur] at hcw
      injection hcw with hp
      injection hp with h1 h2
      exact hw h1.symm
  · rw [if_neg hu]
    rw [isEffective_cons, if_neg (fun hc => hu hc.1)] at heff
    exact h u0 w heff

theorem newestCoherent_create (s : Store) (u id : String)
    (h : newestCoherent s)
    (hcur : ∀ w, getCurrentLabel s u ≠ some (w, false)) :
    newestCoherent (Row.mk u id false :: s) := by
  intro u0 w heff
  rw [getCurrentLabel_cons]
  by_cases hu : u = u0
  · subst hu
    rw [if_pos rfl]
    rw [isEffective_cons] at heff
    by_cases hw : w = id
    · subst hw
      rfl
    · rw [if_neg (fun hc => hw hc.2.symm)] at heff
      exact absurd (h u w heff) (hcur w)
  · rw [if_neg hu]
    rw [isEffective_cons, if_neg (fun hc => hu hc.1)] at heff
    exact h u0 w heff

theorem newestCoherent_replace (s : Store) (u v id : String)
    (h : newestCoherent s) (hcur : getCurrentLabel s u = some (v, false)) :
    newestCoherent (Row.mk u id false :: Row.mk u v true :: s) := by
  have hmid : newestCoherent (Row.mk u v true :: s) :=
    newestCoherent_negate s u v h hcur
  have hcur2 : ∀ w, getCurrentLabel (Row.mk u v true :: s) u ≠ some (w, false) := by
    intro w hw
    rw [getCurrentLabel_cons, if_pos rfl] at hw
    injection hw with hp
    injection hp with h1 h2
    exact Bool.noConfusion h2
  exact newestCoherent_create (Row.mk u v true :: s) u id hmid hcur2

theorem handleLike_removal (cfgDid removalRkey : String) (st : HLState)
    (S : String) (hS : validDid S = true) (hne : S ≠ cfgDid)
    (hrr : validRkey removalRkey = true) :
    handleLike cfgDid removalRkey st S removalRkey =
      match getCurrentLabel st.store S with
      | some (v, false) =>
          (.ok ⟨Row.mk S v true :: st.store, decrementLabel st.metrics v⟩,
           [StoreOp.query S, StoreOp.createLabel S v true,
            StoreOp.metricDecrement v])
      | _ => (.ok st, [StoreOp.query S]) := by
  unfold handleLike
  rw [if_neg (by simp [hS]), if_neg (by simp [hrr]), if_neg hne, if_pos rfl]

theorem hlStep_like (cfgDid removalRkey : String) (st : HLState)
    (subject rkey : String) :
    hlStep cfgDid removalRkey st (.like subject rkey) =
      match (handleLike cfgDid removalRkey st subject rkey).1 with
      | .ok st2 => st2
      | .error _ => st := rfl

theorem hlStep_newestCoherent (cfgDid removalRkey : String) (st : HLState)
    (h : newestCoherent st.store) (op : HLOp) :
    newestCoherent (hlStep cfgDid removalRkey st op).store := by
  cases op with
  | like subject rkey =>
    by_cases h1 : validDid subject = false
    · have hstep : hlStep cfgDid removalRkey st (.like subject rkey) = st := by
        rw [hlStep_like]
        unfold handleLike
        rw [if_pos h1]
      rw [hstep]
      exact h
    · by_cases h2 : validRkey rkey = false
      · have hstep : hlStep cfgDid removalRkey st (.like subject rkey) = st := by
          rw [hlStep_like]
          unfold handleLike
          rw [if_neg h1, if_pos h2]
        rw [hstep]
        exact h
      · by_cases h3 : subject = cfgDid
        · have hstep : hlStep cfgDid removalRkey st (.like subject rkey) = st := by
            rw [hlStep_like]
            unfold handleLike
            rw [if_neg h1, if_neg h2, if_pos h3]
          rw [hstep]
          exact h
        · have hS' := bool_eq_true_of_not_eq_false _ h1
          have hK' := bool_eq_true_of_not_eq_false _ h2
          by_cases h4 : rkey = removalRkey
          · subst h4
            have hred := handleLike_removal cfgDid rkey st subject hS' h3 hK'
            cases hcur : getCurrentLabel st.store subject with
            | none =>
                have hstep : hlStep cfgDid rkey st (.like subject rkey) = st := by
                  rw [hlStep_like, hred, hcur]
                rw [hstep]
                exact h
            | some p =>
                obtain ⟨v, b⟩ := p
                cases b with
                | true =>
                    have hstep : hlStep cfgDid rkey st (.like subject rkey) = st := by
                      rw [hlStep_like, hred, hcur]
                    rw [hstep]
                    exact h
                | false =>
                    have hstep : hlStep cfgDid rkey st (.like subject rkey) =
                        ⟨Row.mk subject v true :: st.store,
                          decrementLabel st.metrics v⟩ := by
                      rw [hlStep_like, hred, hcur]
                    rw [hstep]
                    exact newestCoherent_negate st.store subject v h hcur
          · cases hfind : findLabelByPost rkey with
            | none =>
                have hstep : hlStep cfgDid removalRkey st (.like subject rkey) = st := by
                  rw [hlStep_like]
                  unfold handleLike
                  rw [if_neg h1, if_neg h2, if_neg h3, if_neg h4, hfind]
                rw [hstep]
                exact h
            | some lab =>
                have hred := handleLike_assign cfgDid removalRkey st subject rkey
                  lab hS' h3 hK' h4 hfind
                cases hcur : getCurrentLabel st.store subject with
                | none =>
                    have hstep : hlStep cfgDid removalRkey st (.like subject rkey) =
                        ⟨Row.mk subject lab.identifier false :: st.store,
                          incrementLabel st.metrics lab.identifier⟩ := by
                      rw [hlStep_like, hred, hcur]
                    rw [hstep]
                    exact newestCoherent_create st.store subject lab.identifier h
                      (fun w hw => by rw [hcur] at hw; exact Option.noConfusion hw)
                | some p =>
                    obtain ⟨v, b⟩ := p
                    cases b with
                    | true =>
                        have hstep : hlStep cfgDid removalRkey st (.like subject rkey) =
                            ⟨Row.mk subject lab.identifier false :: st.store,
                              incrementLabel st.metrics lab.identifier⟩ := by
                          rw [hlStep_like, hred, hcur]
                        rw [hstep]
                        exact newestCoherent_create st.store subject lab.identifier h
                          (fun w hw => by
                            rw [hcur] at hw
                            injection hw with hp
                            injection hp with hv1 hv2
                            exact Bool.noConfusion hv2)
                    | false =>
                        by_cases hv : v = lab.identifier
                        · have hstep : hlStep cfgDid removalRkey st (.like subject rkey) = st := by
                            rw [hlStep_like, hred, hcur]
                            simp [hv]
                          rw [hstep]
                          exact h
                        · have hstep : hlStep cfgDid removalRkey st (.like subject rkey) =
                              ⟨Row.mk subject lab.identifier false ::
                                 Row.mk subject v true :: st.store,
                                incrementLabel (decrementLabel st.metrics v)
                                  lab.identifier⟩ := by
                            rw [hlStep_like, hred, hcur]
                            simp [hv]
                          rw [hstep]
                          exact newestCoherent_replace st.store subject v
                            lab.identifier h hcur

theorem runHL_newestCoherent (cfgDid removalRkey : String) (ops : List HLOp) :
    newestCoherent (runHL cfgDid removalRkey ops).store := by
  unfold runHL
  have key : ∀ st : HLState, newestCoherent st.store →
      newestCoherent (ops.foldl (hlStep cfgDid removalRkey) st).store := by
    induction ops with
    | nil => exact fun st h => h
    | cons op ops ih =>
        intro st h
        exact ih (hlStep cfgDid removalRkey st op)
          (hlStep_newestCoherent cfgDid removalRkey st h op)
  exact key ⟨[], metricsEmpty⟩ newestCoherent_nil

/-- C4: the removal flow through the decommission sentinel.  In any state
reachable through a sequence of stream events, if the subject S has
effective label `fklr` then reconciling S with the sentinel key
(`CONFIG.REMOVAL_RKEY`) issues exactly one negation write for `fklr` and
applies `decrementLabel` to its counter exactly once (the trace carries
one `createLabel` and one metric call); invoking it again on the
resulting state, where no label is effective, performs the state read
only — no store write and no counter change. -/
theorem C4_removal_flow (cfgDid removalRkey : String) (ops : List HLOp)
    (S : String) (hS : validDid S = true) (hne : S ≠ cfgDid)
    (hrr : validRkey removalRkey = true)
    (heff : isEffective (runHL cfgDid removalRkey ops).store S "fklr" = true) :
    handleLike cfgDid removalRkey (runHL cfgDid removalRkey ops) S removalRkey =
      (.ok ⟨Row.mk S "fklr" true :: (runHL cfgDid removalRkey ops).store,
            decrementLabel (runHL cfgDid removalRkey ops).metrics "fklr"⟩,
       [StoreOp.query S, StoreOp.createLabel S "fklr" true,
        StoreOp.metricDecrement "fklr"]) ∧
    handleLike cfgDid removalRkey
        ⟨Row.mk S "fklr" true :: (runHL cfgDid removalRkey ops).store,
          decrementLabel (runHL cfgDid removalRkey ops).metrics "fklr"⟩
        S removalRkey =
      (.ok ⟨Row.mk S "fklr" true :: (runHL cfgDid removalRkey ops).store,
            decrementLabel (runHL cfgDid removalRkey ops).metrics "fklr"⟩,
       [StoreOp.query S]) := by
  have hcur : getCurrentLabel (runHL cfgDid removalRkey ops).store S =
      some ("fklr", false) :=
    runHL_newestCoherent cfgDid removalRkey ops S "fklr" heff
  constructor
  · rw [handleLike_removal cfgDid removalRkey _ S hS hne hrr, hcur]
  · rw [handleLike_removal cfgDid removalRkey _ S hS hne hrr]
    rw [store_mk, getCurrentLabel_cons, if_pos rfl]

/-- C4, witness: assign `fklr` to a fresh subject, then decommission. -/
theorem C4_removal_flow_witness :
    handleLike didSvc removalRkey0
        (runHL didSvc removalRkey0 [HLOp.like did0 "3jzfcijpj2z2a"])
        did0 removalRkey0 =
      (.ok ⟨Row.mk did0 "fklr" true ::
              (runHL didSvc removalRkey0 [HLOp.like did0 "3jzfcijpj2z2a"]).store,
            decrementLabel
              (runHL didSvc removalRkey0 [HLOp.like did0 "3jzfcijpj2z2a"]).metrics
              "fklr"⟩,
       [StoreOp.query did0, StoreOp.createLabel did0 "fklr" true,
        StoreOp.metricDecrement "fklr"]) ∧
    handleLike didSvc removalRkey0
        ⟨Row.mk did0 "fklr" true ::
            (runHL didSvc removalRkey0 [HLOp.like did0 "3jzfcijpj2z2a"]).store,
          decrementLabel
            (runHL didSvc removalRkey0 [HLOp.like did0 "3jzfcijpj2z2a"]).metrics
            "fklr"⟩
        did0 removalRkey0 =
      (.ok ⟨Row.mk did0 "fklr" true ::
              (runHL didSvc removalRkey0 [HLOp.like did0 "3jzfcijpj2z2a"]).store,
            decrementLabel
              (runHL didSvc removalRkey0 [HLOp.like did0 "3jzfcijpj2z2a"]).metrics
              "fklr"⟩,
       [StoreOp.query did0]) :=
  C4_removal_flow didSvc removalRkey0 [HLOp.like did0 "3jzfcijpj2z2a"] did0
    (by decide) (by decide) (by decide) (by decide)

/-- C5: the self-guard of the reconcile operation.  The claim as frozen
("for every trigger key K, whether or not validly formatted") fails: the
record-key validation at the top of `handleLike` runs before the
self-guard, so a malformed key raises a validation error instead of
returning normally.  Amended to validly formatted keys: a reconcile call
whose subject is the service's own DID performs no store query, no store
write and no metric change, and returns normally. -/
theorem C5_self_guard (cfgDid removalRkey : String) (st : HLState) (K : String)
    (h1 : validDid cfgDid = true) (h2 : validRkey K = true) :
    handleLike cfgDid removalRkey st cfgDid K = (.ok st, []) := by
  unfold handleLike
  rw [h1, h2]
  simp

/-- C5, witness: the self-guard no-ops on the service DID with a valid
trigger key. -/
theorem C5_self_guard_witness :
    handleLike didSvc removalRkey0 ⟨[], metricsEmpty⟩ didSvc "3jzfcijpj2z2a" =
      (.ok ⟨[], metricsEmpty⟩, []) :=
  C5_self_guard didSvc removalRkey0 ⟨[], metricsEmpty⟩ "3jzfcijpj2z2a"
    (by decide) (by decide)

/-- C5, counterexample to the claim as frozen: with the service's own DID
as subject and a malformed trigger key, the reconcile operation raises a
validation error (it does not return normally reporting "blocked"). -/
theorem C5_self_guard_counterexample :
    handleLike didSvc removalRkey0 ⟨[], metricsEmpty⟩ didSvc "not+a+valid+rkey" =
      (.error .validation, []) ∧ validDid didSvc = true :=
  ⟨rfl, by decide⟩

/-- C6: an unknown trigger is not an error.  The claim as frozen fails at
one input family: the decommission sentinel `REMOVAL_RKEY` is itself a
validly formatted record key that appears in no catalog entry, yet
reconciling with it issues a negation `createLabel` when a label is
active.  Amended to exclude the sentinel: for a validly formatted key
that resolves to no catalog entry and is not the sentinel, `handleLike`
returns normally and issues no store call at all. -/
theorem C6_unknown_trigger (cfgDid removalRkey : String) (st : HLState)
    (S K : String) (hS : validDid S = true) (hK : validRkey K = true)
    (hne : S ≠ cfgDid) (hnr : K ≠ removalRkey)
    (hfind : findLabelByPost K = none) :
    handleLike cfgDid removalRkey st S K = (.ok st, []) := by
  unfold handleLike
  rw [hS, hK, hfind]
  simp [hne, hnr]

/-- C6, witness: a fresh well-formed key outside the catalog no-ops. -/
theorem C6_unknown_trigger_witness :
    handleLike didSvc removalRkey0 ⟨[], metricsEmpty⟩ did0 "2222222222222" =
      (.ok ⟨[], metricsEmpty⟩, []) :=
  C6_unknown_trigger didSvc removalRkey0 ⟨[], metricsEmpty⟩ did0 "2222222222222"
    (by decide) (by decide) (by decide) (by decide) (by decide)

/-- C6, counterexample to the claim as frozen: the sentinel
`3jzfcijpj2z2d` is validly formatted and appears in no catalog entry,
yet reconciling with it against a subject holding an active `fklr` label
issues a `createLabel` store write (the negation). -/
theorem C6_unknown_trigger_counterexample :
    validRkey removalRkey0 = true ∧
    (∀ l ∈ LABELS, l.rkey ≠ removalRkey0) ∧
    (handleLike didSvc removalRkey0
        ⟨[Row.mk did0 "fklr" false], metricsEmpty⟩ did0 removalRkey0).2 =
      [StoreOp.query did0, StoreOp.createLabel did0 "fklr" true,
       StoreOp.metricDecrement "fklr"] :=
  ⟨by decide, by decide, rfl⟩

/-- C7: validation precedes all store I/O in `assignOrUpdateLabel`.  A
malformed subject DID, or a malformed trigger key, raises a validation
error with an empty store-operation trace (no query, no create, no
negate, no metric call). -/
theorem C7_validation_ordering (cfgDid : String) (s : Store)
    (subject rkey : String) :
    (validDid subject = false →
      assignOrUpdateLabel cfgDid s subject rkey = (.error .validation, [])) ∧
    (validRkey rkey = false →
      assignOrUpdateLabel cfgDid s subject rkey = (.error .validation, [])) := by
  constructor
  · intro h
    unfold assignOrUpdateLabel
    rw [h]
    simp
  · intro h
    unfold assignOrUpdateLabel
    rw [h]
    cases hv : validDid subject <;> simp

/-- C7, witness: a malformed subject raises with zero store calls. -/
theorem C7_validation_ordering_witness :
    assignOrUpdateLabel didSvc [] "bob" "3jzfcijpj2z2a" =
      (.error .validation, []) :=
  (C7_validation_ordering didSvc [] "bob" "3jzfcijpj2z2a").1 (by decide)

theorem mStep_nonneg (m : Metrics) (h : ∀ x, 0 ≤ getCount m x) (op : MOp) :
    ∀ x, 0 ≤ getCount (mStep m op) x := by
  intro x
  have hid : ∀ y, 0 ≤ (m y).getD 0 := fun y => h y
  cases op with
  | inc id =>
      simp only [mStep, incrementLabel, mset, getCount]
      by_cases hx : x = id
      · rw [if_pos hx, Option.getD_some]
        have := hid id
        omega
      · rw [if_neg hx]
        exact hid x
  | dec id =>
      simp only [mStep, getCount, decrementLabel]
      by_cases hpos : (m id).getD 0 > 0
      · rw [if_pos hpos]
        simp only [mset]
        by_cases hx : x = id
        · rw [if_pos hx, Option.getD_some]
          have := hid id
          omega
        · rw [if_neg hx]
          exact hid x
      · rw [if_neg hpos]
        exact hid x

theorem runMetrics_nonneg (ops : List MOp) (id : String) :
    0 ≤ getCount (runMetrics ops) id := by
  unfold runMetrics
  have key : ∀ (m : Metrics), (∀ x, 0 ≤ getCount m x) →
      ∀ x, 0 ≤ getCount (ops.foldl mStep m) x := by
    induction ops with
    | nil => intro m h x; exact h x
    | cons op ops ih =>
        intro m h x
        exact ih (mStep m op) (mStep_nonneg m h op) x
  exact key metricsEmpty (fun x => by simp [getCount, metricsEmpty]) id

/-- C8: counters never go negative.  From the empty metrics state, any
sequence of `incrementLabel` / `decrementLabel` calls leaves every
per-label count non-negative, and a decrement at count zero leaves the
metrics object untouched (no KV write happens on that path). -/
theorem C8_metrics_floor (ops : List MOp) (id : String) :
    0 ≤ getCount (runMetrics ops) id ∧
      (getCount (runMetrics ops) id = 0 →
        decrementLabel (runMetrics ops) id = runMetrics ops) := by
  refine ⟨runMetrics_nonneg ops id, fun h => ?_⟩
  unfold getCount at h
  unfold decrementLabel
  rw [h]
  simp

/-- C8, witness: one increment followed by one decrement lands back at
zero, and a further decrement is the identity. -/
theorem C8_metrics_floor_witness :
    0 ≤ getCount (runMetrics [MOp.inc "fklr", MOp.dec "fklr"]) "fklr" ∧
      decrementLabel (runMetrics [MOp.inc "fklr", MOp.dec "fklr"]) "fklr" =
        runMetrics [MOp.inc "fklr", MOp.dec "fklr"] :=
  ⟨(C8_metrics_floor [MOp.inc "fklr", MOp.dec "fklr"] "fklr").1,
   (C8_metrics_floor [MOp.inc "fklr", MOp.dec "fklr"] "fklr").2 (by decide)⟩

theorem calculateDelay_formula (n : ℕ) (j : ℚ) (h1 : j < 1000)
    (hn : n < 6) : calculateDelay n j = 30000 + 95000 * n + j := by
  have hform : BASE_DELAY + (MAX_DELAY - BASE_DELAY) *
      ((n : ℚ) / (MAX_EXPONENTIAL_ATTEMPTS : ℚ)) + j = 30000 + 95000 * n + j := by
    unfold BASE_DELAY MAX_DELAY MAX_EXPONENTIAL_ATTEMPTS
    push_cast
    ring
  have hn5 : (n : ℚ) ≤ 5 := by exact_mod_cast Nat.lt_succ_iff.mp hn
  have hle : 30000 + 95000 * (n : ℚ) + j ≤ 600000 := by nlinarith
  unfold calculateDelay
  rw [if_neg (by unfold MAX_EXPONENTIAL_ATTEMPTS; omega), hform]
  unfold MAX_DELAY
  exact min_eq_left hle

/-- C9: the reconnect backoff delay.  With the attempt counter `n` and a
jitter draw `j ∈ [0, 1000)`, `calculateDelay` stays between `BASE_DELAY`
and `MAX_DELAY`, is nondecreasing as the attempt counter grows (across
arbitrary jitter draws), holds constant at `MAX_DELAY` from the bounded
attempt count (6) onwards, and below the cap equals the linearly grown
base delay plus the jitter term. -/
theorem C9_reconnect_backoff (n : ℕ) (j : ℚ) (h0 : 0 ≤ j) (h1 : j < 1000) :
    (BASE_DELAY ≤ calculateDelay n j ∧ calculateDelay n j ≤ MAX_DELAY) ∧
    (∀ m j2, 0 ≤ j2 → j2 < 1000 → n < m →
      calculateDelay n j ≤ calculateDelay m j2) ∧
    (MAX_EXPONENTIAL_ATTEMPTS ≤ n → calculateDelay n j = MAX_DELAY) ∧
    (n < MAX_EXPONENTIAL_ATTEMPTS →
      calculateDelay n j = BASE_DELAY + 95000 * n + j) := by
  have hcap : ∀ (k : ℕ) (j2 : ℚ), MAX_EXPONENTIAL_ATTEMPTS ≤ k →
      calculateDelay k j2 = MAX_DELAY := by
    intro k j2 hk
    unfold calculateDelay
    rw [if_pos hk]
  have hub : ∀ (k : ℕ) (j2 : ℚ), 0 ≤ j2 → j2 < 1000 →
      calculateDelay k j2 ≤ MAX_DELAY := by
    intro k j2 hj0 hj1
    by_cases hk : k < 6
    · rw [calculateDelay_formula k j2 hj1 hk]
      have hk5 : (k : ℚ) ≤ 5 := by exact_mod_cast Nat.lt_succ_iff.mp hk
      unfold MAX_DELAY
      nlinarith
    · unfold calculateDelay MAX_DELAY
      rw [if_pos (by unfold MAX_EXPONENTIAL_ATTEMPTS; omega)]
  have hlb : BASE_DELAY ≤ calculateDelay n j := by
    by_cases hn : n < 6
    · rw [calculateDelay_formula n j h1 hn]
      have : (0 : ℚ) ≤ (n : ℚ) := Nat.cast_nonneg n
      unfold BASE_DELAY
      nlinarith
    · rw [hcap n j (by unfold MAX_EXPONENTIAL_ATTEMPTS; omega)]
      unfold BASE_DELAY MAX_DELAY
      norm_num
  refine ⟨⟨hlb, hub n j h0 h1⟩, ?_, hcap n j, ?_⟩
  · intro m j2 hj0 hj1 hnm
    by_cases hm : m < 6
    · have hn : n < 6 := by omega
      rw [calculateDelay_formula n j h1 hn, calculateDelay_formula m j2 hj1 hm]
      have hmono : (n : ℚ) + 1 ≤ (m : ℚ) := by exact_mod_cast hnm
      nlinarith
    · rw [hcap m j2 (by unfold MAX_EXPONENTIAL_ATTEMPTS; omega)]
      exact hub n j h0 h1
  · intro hn
    unfold MAX_EXPONENTIAL_ATTEMPTS at hn
    rw [calculateDelay_formula n j h1 hn]
    unfold BASE_DELAY
    ring

/-- C9, witness: the bounds at attempt 3 with jitter one half. -/
theorem C9_reconnect_backoff_witness :
    BASE_DELAY ≤ calculateDelay 3 (1/2) ∧ calculateDelay 3 (1/2) ≤ MAX_DELAY :=
  (C9_reconnect_backoff 3 (1/2) (by norm_num) (by norm_num)).1

/-- C10: `setConfigValue` validates the whole updated configuration
before any write.  If the parse fails it throws and both the in-memory
`CONFIG` and the KV store are returned unchanged with an empty write
list; if it succeeds, exactly the entry for the updated key is written,
the new `CONFIG` is the old one updated at that key alone, and the
updated key holds the new value.  The hypothesis `hparse` records that
`ConfigSchema.parse` returns its input unchanged on success (the schema
has no transforms; defaults never fire because every field is present). -/
theorem C10_config_atomicity (parse : Config → Option Config)
    (hparse : ∀ c c2, parse c = some c2 → c2 = c)
    (cfg : Config) (kv : ConfigKv) (key : ConfigKey) (v : ConfigVal) :
    (parse (configUpdate cfg key v) = none →
      setConfigValue parse cfg kv key v = (some .validation, cfg, kv, [])) ∧
    (∀ c2, parse (configUpdate cfg key v) = some c2 →
      setConfigValue parse cfg kv key v =
        (none, configUpdate cfg key v,
         fun k => if k = key then some v else kv k, [key]) ∧
      (∀ k, k ≠ key → configUpdate cfg key v k = cfg k) ∧
      configUpdate cfg key v key = v) := by
  constructor
  · intro h
    unfold setConfigValue
    rw [h]
  · intro c2 h
    have hc2 : c2 = configUpdate cfg key v := hparse _ _ h
    subst hc2
    refine ⟨?_, fun k hk => by unfold configUpdate; rw [if_neg hk],
      by unfold configUpdate; rw [if_pos rfl]⟩
    have hfun : (fun k => if k = key then some (configUpdate cfg key v key) else kv k) =
        (fun k => if k = key then some v else kv k) := by
      funext k
      by_cases hk : k = key
      · rw [if_pos hk, if_pos hk]
        unfold configUpdate
        rw [if_pos rfl]
      · rw [if_neg hk, if_neg hk]
    unfold setConfigValue
    rw [h]
    show (none, configUpdate cfg key v,
        fun k => if k = key then some (configUpdate cfg key v key) else kv k,
        [key]) =
      (none, configUpdate cfg key v,
        fun k => if k = key then some v else kv k, [key])
    rw [hfun]

/-- C10, witness: a trivially succeeding parse writes exactly the
updated key. -/
theorem C10_config_atomicity_witness :
    setConfigValue (fun c => some c) (fun _ => ConfigVal.num 0) (fun _ => none)
        ConfigKey.PORT (ConfigVal.num 1024) =
      (none, configUpdate (fun _ => ConfigVal.num 0) ConfigKey.PORT (ConfigVal.num 1024),
       fun k => if k = ConfigKey.PORT then some (ConfigVal.num 1024) else none,
       [ConfigKey.PORT]) ∧
    configUpdate (fun _ => ConfigVal.num 0) ConfigKey.PORT (ConfigVal.num 1024)
        ConfigKey.PORT = ConfigVal.num 1024 :=
  ⟨((C10_config_atomicity (fun c => some c)
      (fun _ _ h => (Option.some.inj h).symm)
      (fun _ => ConfigVal.num 0) (fun _ => none)
      ConfigKey.PORT (ConfigVal.num 1024)).2 _ rfl).1,
   ((C10_config_atomicity (fun c => some c)
      (fun _ _ h => (Option.some.inj h).symm)
      (fun _ => ConfigVal.num 0) (fun _ => none)
      ConfigKey.PORT (ConfigVal.num 1024)).2 _ rfl).2.2⟩

theorem isEffective_exists_row (s : Store) (u v : String)
    (h : isEffective s u v = true) : ∃ r ∈ s, r.val = v := by
  unfold isEffective at h
  cases hf : s.find? (fun r => r.uri == u && r.val == v) with
  | none =>
      rw [hf] at h
      exact absurd h (by decide)
  | some r =>
      have hmem := List.mem_of_find?_eq_some hf
      have hpred := List.find?_some hf
      simp only [Bool.and_eq_true, beq_iff_eq] at hpred
      exact ⟨r, hmem, hpred.2⟩

theorem fetch_val_exists (s : Store) (did c v : String)
    (h : v ∈ fetchCurrentLabels s did c) : ∃ r ∈ s, r.val = v := by
  unfold fetchCurrentLabels at h
  rw [mem_fetchFold] at h
  rcases h with h | ⟨r, hr, _, _, _, hval⟩
  · exact absurd h (List.not_mem_nil v)
  · exact ⟨r, hr, hval⟩

theorem applyOp_assign (cfgDid : String) (s : Store) (subject rkey : String) :
    applyOp cfgDid s (.assign subject rkey) =
      match (assignOrUpdateLabel cfgDid s subject rkey).1 with
      | .ok s2 => s2
      | .error _ => s := rfl

theorem applyOp_remove (cfgDid : String) (s : Store) (subject li : String) :
    applyOp cfgDid s (.remove subject li) =
      match (removeLabel s subject li).1 with
      | .ok s2 => s2
      | .error _ => s := rfl

theorem assignOrUpdateLabel_resolved (cfgDid : String) (s : Store)
    (subject rkey : String) (lab : Label)
    (h1 : ¬ validDid subject = false) (h2 : ¬ validRkey rkey = false)
    (h3 : ¬ subject = cfgDid) (hfind : findLabelByPost rkey = some lab) :
    assignOrUpdateLabel cfgDid s subject rkey =
      match getCategoryFromLabel lab.identifier with
      | none => (.error .labeling, [])
      | some category =>
        if fetchCurrentLabels s subject category = [] then
          (.ok (Row.mk subject lab.identifier false :: s),
           [StoreOp.query subject,
            StoreOp.createLabel subject lab.identifier false,
            StoreOp.metricRecord lab.identifier])
        else
          (.ok (Row.mk subject lab.identifier false ::
                  negateAll s subject (fetchCurrentLabels s subject category)),
           [StoreOp.query subject,
            StoreOp.createLabels subject (fetchCurrentLabels s subject category),
            StoreOp.createLabel subject lab.identifier false,
            StoreOp.metricRecord lab.identifier]) := by
  unfold assignOrUpdateLabel
  rw [if_neg h1, if_neg h2, if_neg h3, hfind]

theorem assignOrUpdateLabel_cat (cfgDid : String) (s : Store)
    (subject rkey : String) (lab : Label) (cat : String)
    (h1 : ¬ validDid subject = false) (h2 : ¬ validRkey rkey = false)
    (h3 : ¬ subject = cfgDid) (hfind : findLabelByPost rkey = some lab)
    (hcat : getCategoryFromLabel lab.identifier = some cat) :
    assignOrUpdateLabel cfgDid s subject rkey =
      if fetchCurrentLabels s subject cat = [] then
        (.ok (Row.mk subject lab.identifier false :: s),
         [StoreOp.query subject,
          StoreOp.createLabel subject lab.identifier false,
          StoreOp.metricRecord lab.identifier])
      else
        (.ok (Row.mk subject lab.identifier false ::
                negateAll s subject (fetchCurrentLabels s subject cat)),
         [StoreOp.query subject,
          StoreOp.createLabels subject (fetchCurrentLabels s subject cat),
          StoreOp.createLabel subject lab.identifier false,
          StoreOp.metricRecord lab.identifier]) := by
  rw [assignOrUpdateLabel_resolved cfgDid s subject rkey lab h1 h2 h3 hfind,
    hcat]

theorem removeLabel_cat (s : Store) (subject li cat : String)
    (h1 : ¬ validDid subject = false)
    (hcat : getCategoryFromLabel li = some cat) :
    removeLabel s subject li =
      if li ∈ fetchCurrentLabels s subject cat then
        (.ok (Row.mk subject li true :: s),
         [StoreOp.query subject, StoreOp.createLabel subject li true,
          StoreOp.metricRecord li])
      else (.ok s, [StoreOp.query subject]) := by
  unfold removeLabel
  rw [if_neg h1, hcat]

/-- Every row of a store reachable through the engine carries a catalog
identifier as its value: creations write `newLabel.identifier`, and
negations only target values read back from the store. -/
def storeWellFormed (s : Store) : Prop :=
  ∀ r ∈ s, ∃ l ∈ LABELS, r.val = l.identifier

theorem applyOp_wf (cfgDid : String) (s : Store) (h : storeWellFormed s)
    (op : AeonOp) : storeWellFormed (applyOp cfgDid s op) := by
  cases op with
  | assign subject rkey =>
      by_cases h1 : validDid subject = false
      · have hst : applyOp cfgDid s (.assign subject rkey) = s := by
          rw [applyOp_assign]
          unfold assignOrUpdateLabel
          rw [if_pos h1]
        rw [hst]
        exact h
      · by_cases h2 : validRkey rkey = false
        · have hst : applyOp cfgDid s (.assign subject rkey) = s := by
            rw [applyOp_assign]
            unfold assignOrUpdateLabel
            rw [if_neg h1, if_pos h2]
          rw [hst]
          exact h
        · by_cases h3 : subject = cfgDid
          · have hst : applyOp cfgDid s (.assign subject rkey) = s := by
              rw [applyOp_assign]
              unfold assignOrUpdateLabel
              rw [if_neg h1, if_neg h2, if_pos h3]
            rw [hst]
            exact h
          · cases hfind : findLabelByPost rkey with
            | none =>
                have hst : applyOp cfgDid s (.assign subject rkey) = s := by
                  rw [applyOp_assign]
                  unfold assignOrUpdateLabel
                  rw [if_neg h1, if_neg h2, if_neg h3, hfind]
                rw [hst]
                exact h
            | some lab =>
                cases hcat : getCategoryFromLabel lab.identifier with
                | none =>
                    have hst : applyOp cfgDid s (.assign subject rkey) = s := by
                      rw [applyOp_assign,
                        assignOrUpdateLabel_resolved cfgDid s subject rkey lab
                          h1 h2 h3 hfind, hcat]
                    rw [hst]
                    exact h
                | some cat =>
                    by_cases hex : fetchCurrentLabels s subject cat = []
                    · have hst : applyOp cfgDid s (.assign subject rkey) =
                          Row.mk subject lab.identifier false :: s := by
                        rw [applyOp_assign,
                          assignOrUpdateLabel_cat cfgDid s subject rkey lab cat
                            h1 h2 h3 hfind hcat, if_pos hex]
                      rw [hst]
                      intro r hr
                      rcases List.mem_cons.mp hr with rfl | hr2
                      · exact ⟨lab, List.mem_of_find?_eq_some hfind, rfl⟩
                      · exact h r hr2
                    · have hst : applyOp cfgDid s (.assign subject rkey) =
                          Row.mk subject lab.identifier false ::
                            negateAll s subject
                              (fetchCurrentLabels s subject cat) := by
                        rw [applyOp_assign,
                          assignOrUpdateLabel_cat cfgDid s subject rkey lab cat
                            h1 h2 h3 hfind hcat, if_neg hex]
                      rw [hst]
                      intro r hr
                      rcases List.mem_cons.mp hr with rfl | hr2
                      · exact ⟨lab, List.mem_of_find?_eq_some hfind, rfl⟩
                      · unfold negateAll at hr2
                        rcases List.mem_append.mp hr2 with hmap | hs
                        · rcases List.mem_map.mp hmap with ⟨v, hv, rfl⟩
                          obtain ⟨r2, hr2s, hval⟩ :=
                            fetch_val_exists s subject cat v hv
                          obtain ⟨l, hl, hlv⟩ := h r2 hr2s
                          exact ⟨l, hl, hval ▸ hlv⟩
                        · exact h r hs
  | remove subject li =>
      by_cases h1 : validDid subject = false
      · have hst : applyOp cfgDid s (.remove subject li) = s := by
          rw [applyOp_remove]
          unfold removeLabel
          rw [if_pos h1]
        rw [hst]
        exact h
      · cases hcat : getCategoryFromLabel li with
        | none =>
            have hst : applyOp cfgDid s (.remove subject li) = s := by
              rw [applyOp_remove]
              unfold removeLabel
              rw [if_neg h1, hcat]
            rw [hst]
            exact h
        | some cat =>
            by_cases hmem : li ∈ fetchCurrentLabels s subject cat
            · have hst : applyOp cfgDid s (.remove subject li) =
                  Row.mk subject li true :: s := by
                rw [applyOp_remove, removeLabel_cat s subject li cat h1 hcat,
                  if_pos hmem]
              rw [hst]
              intro r hr
              rcases List.mem_cons.mp hr with rfl | hr2
              · obtain ⟨r2, hr2s, hval⟩ := fetch_val_exists s subject cat li hmem
                obtain ⟨l, hl, hlv⟩ := h r2 hr2s
                exact ⟨l, hl, hval ▸ hlv⟩
              · exact h r hr2
            · have hst : applyOp cfgDid s (.remove subject li) = s := by
                rw [applyOp_remove, removeLabel_cat s subject li cat h1 hcat,
                  if_neg hmem]
              rw [hst]
              exact h

theorem runOps_wf (cfgDid : String) (ops : List AeonOp) :
    storeWellFormed (runOps cfgDid ops) := by
  unfold runOps
  have key : ∀ s, storeWellFormed s →
      storeWellFormed (ops.foldl (applyOp cfgDid) s) := by
    induction ops with
    | nil => exact fun s h => h
    | cons op ops ih =>
        intro s h
        exact ih (applyOp cfgDid s op) (applyOp_wf cfgDid s h op)
  exact key [] (fun r hr => absurd hr (List.not_mem_nil r))

/-- `getCategoryFromLabel` separates catalog identifiers: two identifiers
drawn from the catalog that resolve to the same category are equal (the
canonical catalog is 1:1 between identifiers and categories, and the
4-character categories are never prefixes of one another). -/
theorem catOf_inj_on_identifiers :
    ∀ v1 ∈ LABELS.map Label.identifier, ∀ v2 ∈ LABELS.map Label.identifier,
      getCategoryFromLabel v1 = getCategoryFromLabel v2 → v1 = v2 := by
  decide

/-- C1: mutual exclusivity.  After any sequence of completed engine calls
(`assignOrUpdateLabel` / `removeLabel`) from the empty store, two labels
that are simultaneously effective for the same subject and resolve to the
same category are the same label — the committed end state never holds
two distinct effective labels in one category for one subject.
(`assignOrUpdateLabel` negates every fetched label of the target category
before creating the new one, and only catalog identifiers — each its own
category — ever reach the store.) -/
theorem C1_mutual_exclusivity (cfgDid : String) (ops : List AeonOp)
    (S v1 v2 : String)
    (h1 : isEffective (runOps cfgDid ops) S v1 = true)
    (h2 : isEffective (runOps cfgDid ops) S v2 = true)
    (hc : getCategoryFromLabel v1 = getCategoryFromLabel v2) : v1 = v2 := by
  have hwf := runOps_wf cfgDid ops
  obtain ⟨r1, hr1, hval1⟩ := isEffective_exists_row _ S v1 h1
  obtain ⟨r2, hr2, hval2⟩ := isEffective_exists_row _ S v2 h2
  obtain ⟨l1, hl1, hlv1⟩ := hwf r1 hr1
  obtain ⟨l2, hl2, hlv2⟩ := hwf r2 hr2
  have hm1 : v1 ∈ LABELS.map Label.identifier :=
    List.mem_map.mpr ⟨l1, hl1, by rw [← hlv1]; exact hval1⟩
  have hm2 : v2 ∈ LABELS.map Label.identifier :=
    List.mem_map.mpr ⟨l2, hl2, by rw [← hlv2]; exact hval2⟩
  exact catOf_inj_on_identifiers v1 hm1 v2 hm2 hc

/-- C1, witness: after one assignment the `fklr` label is effective, and
the theorem applies to it. -/
theorem C1_mutual_exclusivity_witness :
    isEffective (runOps didSvc [AeonOp.assign did0 "3jzfcijpj2z2a"]) did0 "fklr"
        = true ∧ ("fklr" : String) = "fklr" :=
  ⟨by decide,
   C1_mutual_exclusivity didSvc [AeonOp.assign did0 "3jzfcijpj2z2a"] did0
     "fklr" "fklr" (by decide) (by decide) rfl⟩

end Aeon
